import Mathlib

/-!
Shallow embedding of `escape_eschalon.py` (Escape from Eschaton).

The Python program searches for a sequence of acceleration choices that lets a
ship escape a one-dimensional belt of periodically-occupied obstacle slots.
Every definition below mirrors the corresponding Python function line by line;
machine behaviour that the source exhibits (the wrap-around list index at
position 0, the unbound local `need_to_be_ship` when the gap list is empty,
the gap-index guard `i < len(gaps)` that allows an out-of-range lookup) is
reproduced, not repaired.  Python exceptions are modelled by `Except`.
-/

set_option autoImplicit false

/-- One asteroid slot of the belt: `{t_per_asteroid_cycle, offset}` from the
input JSON.  The slot at a given turn `t` is occupied iff
`(offset + t) % cycle == 0`. -/
structure Slot where
  cycle : Int
  offset : Int
deriving Repr, DecidableEq

/-- A ship state.  In the Python source every `Ship` instance carries
`pos`, `v`, `t`, the acceleration `d` that produced it, and its `parent`.
The root built by `main()` has `d=None, parent=None`, which is the `root`
constructor; every state built by `get_queue` has both, which is the `next`
constructor. -/
inductive ShipState where
  | root (pos v t : Int)
  | next (pos v t d : Int) (parent : ShipState)
deriving Repr, DecidableEq

/-- `self.pos`. -/
def ShipState.pos : ShipState → Int
  | .root p _ _ => p
  | .next p _ _ _ _ => p

/-- `self.v`. -/
def ShipState.v : ShipState → Int
  | .root _ v _ => v
  | .next _ v _ _ _ => v

/-- `self.t`. -/
def ShipState.t : ShipState → Int
  | .root _ _ t => t
  | .next _ _ t _ _ => t

/-- Python `Ship.__eq__`: two ships compare equal iff their `(pos, v)` pairs
agree; time, acceleration and parent are ignored. -/
def shipEq (a b : ShipState) : Bool :=
  a.pos == b.pos && a.v == b.v

/-- Python `ss in visited_nodes` / `child not in visited_nodes`: list
membership under `Ship.__eq__`. -/
def memShip (s : ShipState) (l : List ShipState) : Bool :=
  l.any (fun x => shipEq s x)

/-- The path reconstruction of `main()`: walk the `parent` chain collecting
each node's `d` while a parent exists (the root's `d` is not collected),
in root-to-terminal order. -/
def accelPath : ShipState → List Int
  | .root _ _ _ => []
  | .next _ _ _ d parent => accelPath parent ++ [d]

/-- `Ship.pos_full_next_turn(pos)`: occupancy of the arrival slot.  The Python
lookup is `self.asteroids[pos - 1]`; for `pos = 0` the index is `-1`, which in
Python selects the LAST slot of the belt (negative-index wrap-around).  The
slot is full iff `(offset + t + 1) % cycle == 0` where `t` is the current
ship's time.  Callers only pass `0 <= pos < len(asteroids)`. -/
def pos_full_next_turn (field : List Slot) (t : Int) (pos : Int) : Bool :=
  let idx : Int := pos - 1
  let ast : Slot :=
    if idx < 0 then field.getLastD ⟨1, 0⟩ else field.getD idx.toNat ⟨1, 0⟩
  (ast.offset + t + 1) % ast.cycle == 0

/-- `Ship.blast_zone_check(pos, t)` acting on the caller's `blast_position`
`bp`: returns the boolean verdict and the new `blast_position`.  The rejection
test (which returns `False` before any advance) is literally
`pos <= bp and bp != 0 and pos < 0`; otherwise, when `t > 0` and
`t % t_per_blast_move == 0`, `blast_position` advances by `t_per_blast_move`
and the call returns `True`. -/
def blast_zone_check (interval : Int) (bp : Int) (pos t : Int) : Bool × Int :=
  if pos ≤ bp ∧ bp ≠ 0 ∧ pos < 0 then (false, bp)
  else if t > 0 ∧ t % interval = 0 then (true, bp + interval)
  else (true, bp)

/-- Child constructor used inside `get_queue`: a `Ship` with
`p=next_pos, v=self.v+dd, t=self.t+1, d=dd, parent=self`. -/
def mkChild (s : ShipState) (dd : Int) (np : Int) : ShipState :=
  .next np (s.v + dd) (s.t + 1) dd s

/-- The direction loop of `Ship.get_queue`, threading the caller's
`blast_position`.  For each direction `dd` (the source iterates over
`[1, 0, -1]`): skip if `next_pos < 0`; skip if `blast_zone_check` rejects
(its side effect happens first); if `next_pos >= len(asteroids)` return the
single finishing ship immediately; skip if the arrival slot is full next
turn; skip if the new ship is already in `visited_nodes`; otherwise append. -/
def getQueueAux (field : List Slot) (interval : Int) (s : ShipState)
    (visited : List ShipState) : List Int → Int → List ShipState × Int
  | [], bp => ([], bp)
  | dd :: rest, bp =>
    let np := s.pos + s.v + dd
    if np < 0 then getQueueAux field interval s visited rest bp
    else
      let r := blast_zone_check interval bp np s.t
      if ¬ r.1 then getQueueAux field interval s visited rest r.2
      else if (field.length : Int) ≤ np then ([mkChild s dd np], r.2)
      else if pos_full_next_turn field s.t np then
        getQueueAux field interval s visited rest r.2
      else
        let ss := mkChild s dd np
        if memShip ss visited then getQueueAux field interval s visited rest r.2
        else
          let o := getQueueAux field interval s visited rest r.2
          (ss :: o.1, o.2)

/-- `Ship.get_queue()`.  A fresh instance reads the class-level
`blast_position = 0`; the final instance-level blast position is irrelevant
to the returned list, so only the list is kept here. -/
def get_queue (field : List Slot) (interval : Int) (s : ShipState)
    (visited : List ShipState) : List ShipState :=
  (getQueueAux field interval s visited [1, 0, -1] 0).1

/-- The scan of `Ship.find_impossible_gaps`, with the current index and the
running streak (`speed`) as parameters.  Per slot: a cycle-1 slot bumps the
streak; a safe slot with non-zero streak emits `(i - (speed+1), speed+1)` and
resets; a safe slot with zero streak just resets.  After the loop, a leftover
streak emits the trailing record `(i - speed, speed + 1)` where `i` is the
last loop index, i.e. `length - 1`. -/
def gapScan : List Slot → Nat → Nat → List (Int × Int)
  | [], i, speed =>
    if speed = 0 then [] else [((i : Int) - 1 - (speed : Int), (speed : Int) + 1)]
  | a :: rest, i, speed =>
    if a.cycle = 1 then gapScan rest (i + 1) (speed + 1)
    else if speed = 0 then gapScan rest (i + 1) 0
    else ((i : Int) - ((speed : Int) + 1), (speed : Int) + 1) :: gapScan rest (i + 1) 0

/-- `Ship.find_impossible_gaps()`: the list bound to
`self.unchangable_ships`. -/
def find_impossible_gaps (field : List Slot) : List (Int × Int) :=
  gapScan field 0 0

/-- Python exceptions that `move_with_equilibrium` can raise:
`UnboundLocalError` at `if need_to_be_ship:` when the gap list is empty, and
`IndexError` at `self.unchangable_ships[i]` when `i` has run past the end of
the gap list.  `outOfFuel` marks exhaustion of the step budget of the
embedding, not a behaviour of the source. -/
inductive EngErr where
  | unboundLocal
  | indexError
  | outOfFuel
deriving Repr, DecidableEq

/-- The mutable state of one `move_with_equilibrium` run: `priority_queue`,
the local `queue` of the most recent expansion, the shared `visited_nodes`,
`unchangable_ships` with its index `i`, `equilibrium`, the local
`need_to_be_ship` (`none` while still unbound) and the loop variable
`child` (`none` before the first iteration). -/
structure EngineState where
  pq : List ShipState
  queue : List ShipState
  visited : List ShipState
  gaps : List (Int × Int)
  i : Nat
  equilibrium : Int
  need : Option (Int × Int)
  child : Option ShipState
deriving Repr, DecidableEq

/-- Placeholder ship for the guarded list lookups below; every lookup in the
engine is made under the guard the source provides, so the default is never
the value read. -/
def dummyShip : ShipState := .root 0 0 0

/-- The selection block of lines 211-222: with a non-empty local `queue`,
pick `queue[0]` when `equilibrium < 0`, `queue[-1]` when `equilibrium > 0`,
`queue[len(queue) // 2]` when it is zero. -/
def pivot (eq : Int) (q : List ShipState) : ShipState :=
  if eq < 0 then q.headD dummyShip
  else if 0 < eq then q.getLastD dummyShip
  else q.getD (q.length / 2) dummyShip

/-- The child chosen by one loop iteration: the pivot of the local `queue`
when it is non-empty, otherwise `self.priority_queue.pop()` (the last
accumulated candidate). -/
def chosenChild (st : EngineState) : ShipState :=
  if st.queue.isEmpty then st.pq.getLastD dummyShip
  else pivot st.equilibrium st.queue

/-- Outcome of one iteration of the `while self.priority_queue:` loop. -/
inductive StepRes where
  | done (c : ShipState)
  | cont (st : EngineState)
  | err (e : EngErr)
deriving Repr, DecidableEq

/-- One iteration of the search loop of `Ship.move_with_equilibrium`,
assuming the `while` guard (`priority_queue` non-empty) holds.  In source
order: the gap lookup `need_to_be_ship = self.unchangable_ships[i]` (an
`IndexError` when `i` is out of range); the selection of `child` (pivot of
the local `queue`, else a pop of `priority_queue`); the break when
`child.pos >= len(self.asteroids) - 1`; the visited insertion; the reading of
`need_to_be_ship` (an `UnboundLocalError` when never assigned); the gap-index
advance under `child.pos >= need_to_be_ship[0] and i < len(gaps)`; the
equilibrium update `child.v - need_to_be_ship[1]`; the expansion
`queue = child.get_queue()` and `priority_queue += queue`. -/
def engineStep (field : List Slot) (interval : Int) (st : EngineState) : StepRes :=
  let needRes : Except EngErr (Option (Int × Int)) :=
    if st.gaps.isEmpty then .ok st.need
    else
      match st.gaps.get? st.i with
      | some g => .ok (some g)
      | none => .error .indexError
  match needRes with
  | .error e => .err e
  | .ok newNeed =>
    let child := chosenChild st
    let pq1 := if st.queue.isEmpty then st.pq.dropLast else st.pq
    if (field.length : Int) - 1 ≤ child.pos then .done child
    else
      let visited1 := if memShip child st.visited then st.visited else st.visited ++ [child]
      match newNeed with
      | none => .err .unboundLocal
      | some g =>
        let i1 := if g.1 ≤ child.pos ∧ st.i < st.gaps.length then st.i + 1 else st.i
        let q1 := get_queue field interval child visited1
        .cont { pq := pq1 ++ q1, queue := q1, visited := visited1,
                gaps := st.gaps, i := i1, equilibrium := child.v - g.2,
                need := newNeed, child := some child }

/-- The `while self.priority_queue:` loop, with a fuel bound (the source has
no bound; concrete runs below use enough fuel).  When the guard fails the
loop falls through and returns the current `child` (`None` if the body never
ran). -/
def engineLoop (field : List Slot) (interval : Int) :
    Nat → EngineState → Except EngErr (Option ShipState)
  | 0, _ => .error .outOfFuel
  | fuel + 1, st =>
    if st.pq.isEmpty then .ok st.child
    else
      match engineStep field interval st with
      | .done c => .ok (some c)
      | .err e => .error e
      | .cont st1 => engineLoop field interval fuel st1

/-- Lines 202-207 of the source: compute the gaps, seed both
`priority_queue` and the local `queue` with the root's `get_queue()` (in
Python the two names alias one list here), start `i = 0`,
`equilibrium = 0`, `child = None`, with `need_to_be_ship` still unbound. -/
def initState (field : List Slot) (interval : Int) (rootShip : ShipState) : EngineState :=
  let q0 := get_queue field interval rootShip []
  { pq := q0, queue := q0, visited := [], gaps := find_impossible_gaps field,
    i := 0, equilibrium := 0, need := none, child := none }

/-- `Ship.move_with_equilibrium()` on a fresh run (class-level shared state
in its initial configuration), with a fuel bound for the loop. -/
def move_with_equilibrium (field : List Slot) (interval : Int)
    (rootShip : ShipState) (fuel : Nat) : Except EngErr (Option ShipState) :=
  engineLoop field interval fuel (initState field interval rootShip)

/-- Iterate `engineStep` a given number of times through `cont` outcomes,
checking the `while` guard before each step; `none` when the run stops or
fails earlier.  Observer used to reach concrete mid-loop states. -/
def engineIter (field : List Slot) (interval : Int) :
    Nat → EngineState → Option EngineState
  | 0, st => some st
  | n + 1, st =>
    if st.pq.isEmpty then none
    else
      match engineStep field interval st with
      | .cont st1 => engineIter field interval n st1
      | _ => none

/-- The child a `StepRes` acts on: the returned ship of a `done`, the
`child` recorded in the continuation state, nothing on an error. -/
def stepChild : StepRes → Option ShipState
  | .done c => some c
  | .cont st => st.child
  | .err _ => none

/-- The starting ship of `main()`: `t=0, p=0, v=0`, no parent. -/
def rootShip : ShipState := .root 0 0 0

/-! ### Helper lemmas shared between claims -/

/-- For a non-negative position the blast-zone rejection condition is
unsatisfiable, so the check reports the zone as secure. -/
theorem blastCheckNonneg (interval bp pos t : Int) (h : 0 ≤ pos) :
    (blast_zone_check interval bp pos t).1 = true := by
  unfold blast_zone_check
  split
  · next hc => exact absurd hc.2.2 (by omega)
  · split <;> rfl

/-! ### Claim C1 -/

/-- C1: the claim states that on a Field with no impossible gap the search
loop proceeds as if a sentinel gap of length 0 were active and runs to its
normal exit.  The code has no such sentinel: with an empty gap list the local
`need_to_be_ship` is never assigned, and the first iteration that survives
the break test raises `UnboundLocalError` at `if need_to_be_ship:`.  On the
gap-free two-slot belt `[{cycle 2, offset 0}, {cycle 2, offset 0}]` with
`t_per_blast_move = 2` the engine fails instead of proceeding. -/
theorem c1_empty_gaps_unbound_local :
    find_impossible_gaps [⟨2, 0⟩, ⟨2, 0⟩] = []
    ∧ move_with_equilibrium [⟨2, 0⟩, ⟨2, 0⟩] 2 rootShip 20
        = .error .unboundLocal := by
  exact ⟨rfl, rfl⟩

/-! ### Claim C3 -/

/-- C3: `blast_zone_check` rejects exactly when
`pos <= blast_position ∧ blast_position ≠ 0 ∧ pos < 0`, which is
unsatisfiable for non-negative `pos`; hence for every `pos ≥ 0` and every
`t` the check returns `True`. -/
theorem c3_blast_check_always_true (interval bp pos t : Int) :
    ((blast_zone_check interval bp pos t).1 = false
        ↔ pos ≤ bp ∧ bp ≠ 0 ∧ pos < 0)
    ∧ (0 ≤ pos → (blast_zone_check interval bp pos t).1 = true) := by
  constructor
  · unfold blast_zone_check
    split
    · next hc => simpa using hc
    · next hc => split <;> simpa using hc
  · exact blastCheckNonneg interval bp pos t

/-- Witness for C3 at `interval = 2, bp = 0, pos = 0, t = 0`. -/
theorem c3_blast_check_always_true_witness :
    ((blast_zone_check 2 0 0 0).1 = false
        ↔ (0 : Int) ≤ 0 ∧ (0 : Int) ≠ 0 ∧ (0 : Int) < 0)
    ∧ ((0 : Int) ≤ 0 → (blast_zone_check 2 0 0 0).1 = true) :=
  c3_blast_check_always_true 2 0 0 0

/-! ### Claim C4 -/

/-- C4 counterexample: on the single-slot field of Scenario C
(`t_per_asteroid_cycle = 1, offset = 0`) the analyzer's one gap record has
`start_index = -1` (the trailing-gap rule computes `i - speed = 0 - 1`),
not `start_index = 0` as the claim states. -/
theorem c4_scenarioC_counterexample :
    (find_impossible_gaps [⟨1, 0⟩]).map Prod.fst = [(-1 : Int)]
    ∧ (find_impossible_gaps [⟨1, 0⟩]).map Prod.fst ≠ [(0 : Int)] := by
  exact ⟨rfl, by decide⟩

/-- C4 amended: on Scenario C the analyzer reports exactly one gap record,
`(start_index = -1, length = 2)`, and the search still terminates: with
`t_per_blast_move = 2` it returns the terminal state at position 1 (a true
escape, `1 >= len(field)`), whose acceleration path is `[1]`. -/
theorem c4_scenarioC_amended :
    find_impossible_gaps [⟨1, 0⟩] = [((-1 : Int), (2 : Int))]
    ∧ move_with_equilibrium [⟨1, 0⟩] 2 rootShip 20
        = .ok (some (.next 1 1 1 1 (.root 0 0 0)))
    ∧ (([(⟨1, 0⟩ : Slot)] : List Slot).length : Int)
        ≤ (ShipState.next 1 1 1 1 (.root 0 0 0)).pos
    ∧ accelPath (.next 1 1 1 1 (.root 0 0 0)) = [1] := by
  exact ⟨rfl, rfl, by decide, rfl⟩

/-! ### Claim C7 -/

/-- C7: the claim states the gap index is advanced only while
`gap_index < len(gaps) - 1`, so the gap lookup at the top of each iteration
is always valid.  The code's guard is `i < len(self.unchangable_ships)`, so
`i` can reach `len(gaps)` and the next iteration's lookup
`self.unchangable_ships[i]` raises `IndexError`.  On the belt
`[{1,0}, {2,0}, {2,0}, {2,0}, {2,0}, {2,0}]` with `t_per_blast_move = 2`
the gap list is `[(-1, 2)]`; the first iteration advances `i` to 1 and the
second iteration fails on the lookup. -/
theorem c7_gap_index_overrun :
    find_impossible_gaps [⟨1, 0⟩, ⟨2, 0⟩, ⟨2, 0⟩, ⟨2, 0⟩, ⟨2, 0⟩, ⟨2, 0⟩]
        = [((-1 : Int), (2 : Int))]
    ∧ move_with_equilibrium [⟨1, 0⟩, ⟨2, 0⟩, ⟨2, 0⟩, ⟨2, 0⟩, ⟨2, 0⟩, ⟨2, 0⟩]
        2 rootShip 20 = .error .indexError := by
  exact ⟨rfl, rfl⟩

/-! ### Claim C9 -/

/-- C9: the claim states `move_with_equilibrium` always returns a terminal
state for every Field.  It does not: on the gap-free three-slot belt
`[{2,0}, {2,0}, {2,0}]` the run raises `UnboundLocalError` (first conjunct).
The Scenario A part of the claim does hold: on
`asteroids = [{2,0}], t_per_blast_move = 2` the engine returns the terminal
state at position 1 with a non-empty acceleration sequence
(remaining conjuncts). -/
theorem c9_engine_totality :
    move_with_equilibrium [⟨2, 0⟩, ⟨2, 0⟩, ⟨2, 0⟩] 2 rootShip 20
        = .error .unboundLocal
    ∧ move_with_equilibrium [⟨2, 0⟩] 2 rootShip 20
        = .ok (some (.next 1 1 1 1 (.root 0 0 0)))
    ∧ (0 : Int) ≤ (ShipState.next 1 1 1 1 (.root 0 0 0)).pos
    ∧ accelPath (.next 1 1 1 1 (.root 0 0 0)) ≠ [] := by
  exact ⟨rfl, rfl, by decide, by decide⟩

/-! ### Claim C10 -/

/-- C10: a candidate arriving at position 0 has its occupancy decided by the
LAST slot of the belt: the lookup `asteroids[pos - 1]` wraps to index `-1`,
so `pos_full_next_turn(0)` holds exactly when
`(offset_of_last_slot + t + 1) % cycle_of_last_slot == 0` where `t` is the
parent state's time. -/
theorem c10_wraparound_position_zero (field : List Slot) (t : Int)
    (h : field ≠ []) :
    pos_full_next_turn field t 0
      = (((field.getLast h).offset + t + 1) % (field.getLast h).cycle == 0) := by
  unfold pos_full_next_turn
  have hlt : (0 : Int) - 1 < 0 := by omega
  simp only [hlt, if_pos, List.getLastD_eq_getLast?, List.getLast?_eq_getLast field h,
    Option.getD_some]

/-- Witness for C10 on the two-slot belt `[{2,0}, {3,1}]` at `t = 1`: the
move to position 0 is checked against the last slot `{3,1}` and is indeed
rejected there, because `(1 + 1 + 1) % 3 == 0`. -/
theorem c10_wraparound_position_zero_witness :
    ([(⟨2, 0⟩ : Slot), ⟨3, 1⟩] : List Slot) ≠ []
    ∧ pos_full_next_turn [⟨2, 0⟩, ⟨3, 1⟩] 1 0
      = (((List.getLast [(⟨2, 0⟩ : Slot), ⟨3, 1⟩] (by decide)).offset + 1 + 1)
          % (List.getLast [(⟨2, 0⟩ : Slot), ⟨3, 1⟩] (by decide)).cycle == 0) :=
  ⟨by decide, c10_wraparound_position_zero [⟨2, 0⟩, ⟨3, 1⟩] 1 (by decide)⟩

/-! ### Claim C5 -/

/-- The escape short-circuit of the direction loop: when the first direction
tried already reaches past the belt, the remaining directions are never
evaluated (the result does not depend on `rest`) and exactly one blast-zone
check has happened. -/
theorem escape_first_dir (field : List Slot) (interval : Int) (s : ShipState)
    (visited : List ShipState) (rest : List Int) (bp : Int)
    (h : (field.length : Int) ≤ s.pos + s.v + 1) :
    getQueueAux field interval s visited (1 :: rest) bp
      = ([ShipState.next (s.pos + s.v + 1) (s.v + 1) (s.t + 1) 1 s],
         (blast_zone_check interval bp (s.pos + s.v + 1) s.t).2) := by
  have h0 : 0 ≤ s.pos + s.v + 1 :=
    le_trans (Int.natCast_nonneg field.length) h
  have hb := blastCheckNonneg interval bp (s.pos + s.v + 1) s.t h0
  unfold getQueueAux
  simp only [hb, h, mkChild, if_neg (by omega : ¬ s.pos + s.v + 1 < 0),
    not_true_eq_false, if_false, if_pos]

/-- C5: if the first direction tried (`+1`) yields
`next_pos = position + velocity + 1 >= len(field)`, then `get_queue` returns
exactly the one-element list holding the terminal state with
`position = next_pos, velocity = velocity+1, time = time+1, acceleration = 1,
parent = the current state`; the remaining directions `0` and `-1` are never
evaluated (the direction loop's result is the same whatever directions
remain). -/
theorem c5_escape_short_circuit (field : List Slot) (interval : Int)
    (s : ShipState) (visited : List ShipState) (rest : List Int) (bp : Int)
    (h : (field.length : Int) ≤ s.pos + s.v + 1) :
    getQueueAux field interval s visited (1 :: rest) bp
      = ([ShipState.next (s.pos + s.v + 1) (s.v + 1) (s.t + 1) 1 s],
         (blast_zone_check interval bp (s.pos + s.v + 1) s.t).2)
    ∧ get_queue field interval s visited
      = [ShipState.next (s.pos + s.v + 1) (s.v + 1) (s.t + 1) 1 s] := by
  refine ⟨escape_first_dir field interval s visited rest bp h, ?_⟩
  unfold get_queue
  rw [show ([1, 0, -1] : List Int) = 1 :: [0, -1] from rfl,
    escape_first_dir field interval s visited [0, -1] 0 h]

/-- Witness for C5: the ship at position 5 on the one-slot belt `[{2,0}]`
escapes on the first direction. -/
theorem c5_escape_short_circuit_witness :
    (([(⟨2, 0⟩ : Slot)] : List Slot).length : Int)
        ≤ (ShipState.root 5 0 0).pos + (ShipState.root 5 0 0).v + 1
    ∧ (getQueueAux [⟨2, 0⟩] 2 (.root 5 0 0) [] (1 :: [0, -1]) 0
        = ([ShipState.next 6 1 1 1 (.root 5 0 0)],
           (blast_zone_check 2 0 6 0).2)
      ∧ get_queue [⟨2, 0⟩] 2 (.root 5 0 0) []
        = [ShipState.next 6 1 1 1 (.root 5 0 0)]) :=
  ⟨by decide, c5_escape_short_circuit [⟨2, 0⟩] 2 (.root 5 0 0) [] [0, -1] 0 (by decide)⟩

/-! ### Claim C2 -/

/-- The engine state reached after one full iteration on the belt
`[{3,0}, {3,0}, {3,0}, {3,0}, {1,0}, {3,0}, {2,1}]` with
`t_per_blast_move = 2`. -/
def c2mid : Option EngineState :=
  engineIter [⟨3, 0⟩, ⟨3, 0⟩, ⟨3, 0⟩, ⟨3, 0⟩, ⟨1, 0⟩, ⟨3, 0⟩, ⟨2, 1⟩] 2 1
    (initState [⟨3, 0⟩, ⟨3, 0⟩, ⟨3, 0⟩, ⟨3, 0⟩, ⟨1, 0⟩, ⟨3, 0⟩, ⟨2, 1⟩] 2 rootShip)

/-- C2 counterexample: at the (reachable) second iteration on the belt of
`c2mid` the equilibrium is `-1 < 0`, so the claim says the engine expands the
FIRST element of the accumulated open list — the ship at position 1 generated
from the root.  The code instead pivots over the most recent expansion list
(`queue`, non-empty here) and expands the ship at position 3; the step's
outcome indeed acts on that ship.  The two candidates differ (position 3
versus position 1). -/
theorem c2_selection_counterexample :
    (c2mid.map fun st => st.equilibrium) = some (-1)
    ∧ (c2mid.map fun st => st.queue.isEmpty) = some false
    ∧ (c2mid.map fun st => st.pq.headD dummyShip)
        = some (.next 1 1 1 1 (.root 0 0 0))
    ∧ (c2mid.map fun st => chosenChild st)
        = some (.next 3 2 2 1 (.next 1 1 1 1 (.root 0 0 0)))
    ∧ (c2mid.map fun st =>
        stepChild (engineStep [⟨3, 0⟩, ⟨3, 0⟩, ⟨3, 0⟩, ⟨3, 0⟩, ⟨1, 0⟩, ⟨3, 0⟩, ⟨2, 1⟩] 2 st))
        = some (some (.next 3 2 2 1 (.next 1 1 1 1 (.root 0 0 0))))
    ∧ (ShipState.next 3 2 2 1 (.next 1 1 1 1 (.root 0 0 0)))
        ≠ (.next 1 1 1 1 (.root 0 0 0)) := by
  exact ⟨rfl, rfl, rfl, rfl, rfl, by decide⟩

/-- C2 amended: the engine's candidate is chosen by the pivot rule over the
MOST RECENT expansion list (the local `queue`; initially this is the root's
queue, which is also the whole open list), not over the accumulated open
list; when that recent list is empty the engine pops the last accumulated
candidate.  Whenever the gap lookup does not fail, the iteration either
returns that candidate or continues with it as the recorded child — unless
the unbound `need_to_be_ship` aborts the iteration after the selection. -/
theorem c2_selection_amended (field : List Slot) (interval : Int)
    (st : EngineState) (hg : st.gaps = [] ∨ st.i < st.gaps.length) :
    stepChild (engineStep field interval st) = some (chosenChild st)
    ∨ engineStep field interval st = .err .unboundLocal := by
  unfold engineStep
  rcases hg with hg | hg
  · simp only [hg, List.isEmpty_nil, if_true]
    cases st.need with
    | none =>
      split
      · exact Or.inl rfl
      · exact Or.inr rfl
    | some g =>
      split
      · exact Or.inl rfl
      · exact Or.inl rfl
  · have hne : st.gaps.isEmpty = false := by
      cases hgaps : st.gaps with
      | nil => rw [hgaps] at hg; simp at hg
      | cons a l => rfl
    rw [hne]
    simp only [Bool.false_eq_true, if_false, List.get?_eq_get hg]
    split
    · exact Or.inl rfl
    · exact Or.inl rfl

/-- Witness for C2's amended claim on the one-slot belt `[{2,0}]`: the gap
list is empty and the first iteration returns the chosen child. -/
theorem c2_selection_amended_witness :
    ((initState [⟨2, 0⟩] 2 rootShip).gaps = []
      ∨ (initState [⟨2, 0⟩] 2 rootShip).i
          < (initState [⟨2, 0⟩] 2 rootShip).gaps.length)
    ∧ (stepChild (engineStep [⟨2, 0⟩] 2 (initState [⟨2, 0⟩] 2 rootShip))
        = some (chosenChild (initState [⟨2, 0⟩] 2 rootShip))
      ∨ engineStep [⟨2, 0⟩] 2 (initState [⟨2, 0⟩] 2 rootShip)
        = .err .unboundLocal) :=
  ⟨Or.inl (by decide),
   c2_selection_amended [⟨2, 0⟩] 2 (initState [⟨2, 0⟩] 2 rootShip)
     (Or.inl (by decide))⟩

/-! ### Claim C6 -/

/-- C6: provided the gap lookup at the top of the iteration does not fail,
the iteration breaks out of the loop returning the chosen child exactly when
that child's position is `>= len(field) - 1`; and in that case the whole loop
returns the child at once — no visited insertion, gap-index advance,
equilibrium update or expansion happens on it, whatever fuel remains. -/
theorem c6_loop_exit_boundary (field : List Slot) (interval : Int)
    (st : EngineState) (n : Nat) (hpq : st.pq.isEmpty = false)
    (hg : st.gaps = [] ∨ st.i < st.gaps.length) :
    (engineStep field interval st = .done (chosenChild st)
        ↔ (field.length : Int) - 1 ≤ (chosenChild st).pos)
    ∧ ((field.length : Int) - 1 ≤ (chosenChild st).pos
        → engineLoop field interval (n + 1) st = .ok (some (chosenChild st))) := by
  have hstep : engineStep field interval st = .done (chosenChild st)
      ↔ (field.length : Int) - 1 ≤ (chosenChild st).pos := by
    unfold engineStep
    rcases hg with hg | hg
    · simp only [hg, List.isEmpty_nil, if_true]
      constructor
      · intro hdone
        by_contra hne
        rw [if_neg hne] at hdone
        rcases hn : st.need with _ | g <;> rw [hn] at hdone <;> simp at hdone
      · intro hge
        rw [if_pos hge]
    · have hne : st.gaps.isEmpty = false := by
        cases hgaps : st.gaps with
        | nil => rw [hgaps] at hg; simp at hg
        | cons a l => rfl
      rw [hne]
      simp only [Bool.false_eq_true, if_false, List.get?_eq_get hg]
      constructor
      · intro hdone
        by_contra hne2
        rw [if_neg hne2] at hdone
        simp at hdone
      · intro hge
        rw [if_pos hge]
  refine ⟨hstep, fun hge => ?_⟩
  unfold engineLoop
  rw [hpq]
  simp only [Bool.false_eq_true, if_false, hstep.mpr hge]

/-- Witness for C6 on the one-slot belt `[{2,0}]` with 5 units of fuel left:
the chosen child sits at position 1 `>= 0 = len - 1`, and the loop returns it
immediately. -/
theorem c6_loop_exit_boundary_witness :
    (initState [⟨2, 0⟩] 2 rootShip).pq.isEmpty = false
    ∧ ((initState [⟨2, 0⟩] 2 rootShip).gaps = []
        ∨ (initState [⟨2, 0⟩] 2 rootShip).i
            < (initState [⟨2, 0⟩] 2 rootShip).gaps.length)
    ∧ ((engineStep [⟨2, 0⟩] 2 (initState [⟨2, 0⟩] 2 rootShip)
          = .done (chosenChild (initState [⟨2, 0⟩] 2 rootShip))
        ↔ (([(⟨2, 0⟩ : Slot)] : List Slot).length : Int) - 1
            ≤ (chosenChild (initState [⟨2, 0⟩] 2 rootShip)).pos)
      ∧ ((([(⟨2, 0⟩ : Slot)] : List Slot).length : Int) - 1
            ≤ (chosenChild (initState [⟨2, 0⟩] 2 rootShip)).pos
          → engineLoop [⟨2, 0⟩] 2 (5 + 1) (initState [⟨2, 0⟩] 2 rootShip)
              = .ok (some (chosenChild (initState [⟨2, 0⟩] 2 rootShip))))) :=
  ⟨by decide, Or.inl (by decide),
   c6_loop_exit_boundary [⟨2, 0⟩] 2 (initState [⟨2, 0⟩] 2 rootShip) 5
     (by decide) (Or.inl (by decide))⟩

/-! ### Claim C8 -/

/-- Scanning a block of cycle-1 slots just advances the index and the streak
counter; no record is emitted inside the block. -/
theorem gapScan_run_of_unsafe (run : List Slot) (h : ∀ x ∈ run, x.cycle = 1)
    (rest : List Slot) (i speed : Nat) :
    gapScan (run ++ rest) i speed
      = gapScan rest (i + run.length) (speed + run.length) := by
  induction run generalizing i speed with
  | nil => simp
  | cons a l ih =>
    have ha : a.cycle = 1 := h a (List.mem_cons_self a l)
    have hl : ∀ x ∈ l, x.cycle = 1 := fun x hx => h x (List.mem_cons_of_mem a hx)
    have e1 : i + 1 + l.length = i + (l.length + 1) := by omega
    have e2 : speed + 1 + l.length = speed + (l.length + 1) := by omega
    simp only [List.cons_append, gapScan, if_pos ha, List.append_eq]
    rw [ih hl, e1, e2, List.length_cons]

/-- A safe slot hit with a non-zero streak emits exactly the record
`(i - (speed+1), speed+1)` and restarts the scan with streak 0. -/
theorem gapScan_safe_emit (a : Slot) (rest : List Slot) (i speed : Nat)
    (ha : a.cycle ≠ 1) (hs : speed ≠ 0) :
    gapScan (a :: rest) i speed
      = ((i : Int) - ((speed : Int) + 1), (speed : Int) + 1)
          :: gapScan rest (i + 1) 0 := by
  simp only [gapScan, if_neg ha, if_neg hs]

/-- Splitting the scan at a safe slot: the records of `xs ++ b :: rest` are
the records of `xs ++ [b]` (scanned standalone — the trailing-gap rule does
not fire because the streak is 0 after `b`) followed by the records of
`rest` scanned from streak 0. -/
theorem gapScan_split_at_safe (xs : List Slot) (b : Slot) (hb : b.cycle ≠ 1)
    (rest : List Slot) (i speed : Nat) :
    gapScan (xs ++ b :: rest) i speed
      = gapScan (xs ++ [b]) i speed ++ gapScan rest (i + xs.length + 1) 0 := by
  induction xs generalizing i speed with
  | nil =>
    by_cases hs : speed = 0
    · simp only [List.nil_append, gapScan, if_neg hb, if_pos hs, List.length_nil]
      simp [gapScan]
    · simp only [List.nil_append, gapScan, if_neg hb, if_neg hs, List.length_nil]
      simp [gapScan]
  | cons a l ih =>
    have e1 : i + 1 + l.length + 1 = i + (l.length + 1) + 1 := by omega
    by_cases ha : a.cycle = 1
    · simp only [List.cons_append, gapScan, if_pos ha, List.append_eq]
      rw [ih (i + 1) (speed + 1), e1, List.length_cons]
    · by_cases hs : speed = 0
      · simp only [List.cons_append, gapScan, if_neg ha, if_pos hs, List.append_eq]
        rw [ih (i + 1) 0, e1, List.length_cons]
      · simp only [List.cons_append, gapScan, if_neg ha, if_neg hs, List.append_eq]
        rw [ih (i + 1) 0, e1, List.length_cons]

/-- Every record emitted while scanning `ys` from index `i` has its
start index at most `i + len(ys) - 2`. -/
theorem gapScan_start_ub (ys : List Slot) (i speed : Nat) (r : Int × Int)
    (hr : r ∈ gapScan ys i speed) : r.1 ≤ (i : Int) + (ys.length : Int) - 2 := by
  induction ys generalizing i speed with
  | nil =>
    by_cases hs : speed = 0
    · rw [hs] at hr; simp [gapScan] at hr
    · simp only [gapScan, if_neg hs, List.mem_singleton] at hr
      have h1 : 1 ≤ speed := Nat.one_le_iff_ne_zero.mpr hs
      subst hr
      simp only [List.length_nil]
      push_cast
      omega
  | cons a l ih =>
    by_cases ha : a.cycle = 1
    · simp only [gapScan, if_pos ha] at hr
      have := ih (i + 1) (speed + 1) hr
      simp only [List.length_cons] at this ⊢
      push_cast at this ⊢
      omega
    · by_cases hs : speed = 0
      · simp only [gapScan, if_neg ha, if_pos hs] at hr
        have := ih (i + 1) 0 hr
        simp only [List.length_cons] at this ⊢
        push_cast at this ⊢
        omega
      · simp only [gapScan, if_neg ha, if_neg hs] at hr
        rcases List.mem_cons.mp hr with h1 | h1
        · have h2 : 1 ≤ speed := Nat.one_le_iff_ne_zero.mpr hs
          subst h1
          simp only [List.length_cons]
          push_cast
          omega
        · have := ih (i + 1) 0 h1
          simp only [List.length_cons] at this ⊢
          push_cast at this ⊢
          omega

/-- Every record emitted while scanning `ys` from index `i` with streak
`speed` has its start index at least `i - speed - 1`. -/
theorem gapScan_start_lb (ys : List Slot) (i speed : Nat) (r : Int × Int)
    (hr : r ∈ gapScan ys i speed) : (i : Int) - (speed : Int) - 1 ≤ r.1 := by
  induction ys generalizing i speed with
  | nil =>
    by_cases hs : speed = 0
    · rw [hs] at hr; simp [gapScan] at hr
    · simp only [gapScan, if_neg hs, List.mem_singleton] at hr
      subst hr
      push_cast
      omega
  | cons a l ih =>
    by_cases ha : a.cycle = 1
    · simp only [gapScan, if_pos ha] at hr
      have := ih (i + 1) (speed + 1) hr
      push_cast at this ⊢
      omega
    · by_cases hs : speed = 0
      · simp only [gapScan, if_neg ha, if_pos hs] at hr
        have := ih (i + 1) 0 hr
        push_cast at this ⊢
        omega
      · simp only [gapScan, if_neg ha, if_neg hs] at hr
        rcases List.mem_cons.mp hr with h1 | h1
        · subst h1
          push_cast
          omega
        · have := ih (i + 1) 0 h1
          push_cast at this ⊢
          omega

/-- C8: for every belt of the shape
`pre ++ [safe b] ++ run ++ [safe a] ++ post` where `run` is a non-empty
block of cycle-1 slots, the analyzer's output decomposes around exactly one
record for the run: its start index is `len(pre)` — which is
`i - (streak+1)` for `i` the index of the safe slot `a` ending the run —
and its length is `len(run) + 1` (the deliberate off-by-one), and that
record occurs exactly once in the whole output. -/
theorem c8_gap_run_record (pre : List Slot) (b : Slot) (run : List Slot)
    (a : Slot) (post : List Slot) (hb : b.cycle ≠ 1) (ha : a.cycle ≠ 1)
    (hrun : run.all (fun x => x.cycle == 1) = true) (hk : run ≠ []) :
    find_impossible_gaps (pre ++ b :: (run ++ a :: post))
      = gapScan (pre ++ [b]) 0 0
          ++ ((pre.length : Int), (run.length : Int) + 1)
            :: gapScan post (pre.length + run.length + 2) 0
    ∧ (find_impossible_gaps (pre ++ b :: (run ++ a :: post))).count
        ((pre.length : Int), (run.length : Int) + 1) = 1 := by
  have hrun1 : ∀ x ∈ run, x.cycle = 1 := by
    intro x hx
    exact eq_of_beq (List.all_eq_true.mp hrun x hx)
  have hlen : run.length ≠ 0 := fun h => hk (List.length_eq_zero.mp h)
  have hmain : find_impossible_gaps (pre ++ b :: (run ++ a :: post))
      = gapScan (pre ++ [b]) 0 0
          ++ ((pre.length : Int), (run.length : Int) + 1)
            :: gapScan post (pre.length + run.length + 2) 0 := by
    unfold find_impossible_gaps
    rw [gapScan_split_at_safe pre b hb (run ++ a :: post) 0 0,
      gapScan_run_of_unsafe run hrun1 (a :: post) (0 + pre.length + 1) 0,
      gapScan_safe_emit a post (0 + pre.length + 1 + run.length)
        (0 + run.length) ha (by omega)]
    have e1 : ((0 + pre.length + 1 + run.length : Nat) : Int)
        - (((0 + run.length : Nat) : Int) + 1) = (pre.length : Int) := by
      push_cast; omega
    have e2 : ((0 + run.length : Nat) : Int) + 1 = (run.length : Int) + 1 := by
      push_cast; ring
    have e3 : 0 + pre.length + 1 + run.length + 1
        = pre.length + run.length + 2 := by omega
    rw [e1, e2, e3]
  have hP : (gapScan (pre ++ [b]) 0 0).count
      ((pre.length : Int), (run.length : Int) + 1) = 0 := by
    rw [List.count_eq_zero]
    intro hmem
    have hub := gapScan_start_ub (pre ++ [b]) 0 0 _ hmem
    simp only [List.length_append, List.length_singleton] at hub
    push_cast at hub
    omega
  have hS : (gapScan post (pre.length + run.length + 2) 0).count
      ((pre.length : Int), (run.length : Int) + 1) = 0 := by
    rw [List.count_eq_zero]
    intro hmem
    have hlb := gapScan_start_lb post (pre.length + run.length + 2) 0 _ hmem
    push_cast at hlb
    omega
  refine ⟨hmain, ?_⟩
  rw [hmain, List.count_append, List.count_cons_self, hP, hS]

/-- Witness for C8: the belt `[{5,0}] ++ [{2,0}] ++ [{1,0}, {1,3}] ++
[{3,0}] ++ [{4,0}]` holds a run of two cycle-1 slots bounded by safe slots;
the analyzer emits exactly one record `(1, 3)` for it. -/
theorem c8_gap_run_record_witness :
    (⟨2, 0⟩ : Slot).cycle ≠ 1
    ∧ (⟨3, 0⟩ : Slot).cycle ≠ 1
    ∧ ([(⟨1, 0⟩ : Slot), ⟨1, 3⟩] : List Slot).all (fun x => x.cycle == 1) = true
    ∧ ([(⟨1, 0⟩ : Slot), ⟨1, 3⟩] : List Slot) ≠ []
    ∧ (find_impossible_gaps
          ([⟨5, 0⟩] ++ (⟨2, 0⟩ : Slot) :: ([⟨1, 0⟩, ⟨1, 3⟩] ++ (⟨3, 0⟩ : Slot) :: [⟨4, 0⟩]))
        = gapScan ([⟨5, 0⟩] ++ [⟨2, 0⟩]) 0 0
            ++ ((1 : Int), (2 : Int) + 1) :: gapScan [⟨4, 0⟩] (1 + 2 + 2) 0
      ∧ (find_impossible_gaps
          ([⟨5, 0⟩] ++ (⟨2, 0⟩ : Slot) :: ([⟨1, 0⟩, ⟨1, 3⟩] ++ (⟨3, 0⟩ : Slot) :: [⟨4, 0⟩]))).count
            ((1 : Int), (2 : Int) + 1) = 1) :=
  ⟨by decide, by decide, by decide, by decide,
   c8_gap_run_record [⟨5, 0⟩] ⟨2, 0⟩ [⟨1, 0⟩, ⟨1, 3⟩] ⟨3, 0⟩ [⟨4, 0⟩]
     (by decide) (by decide) (by decide) (by decide)⟩
